import Mathlib

/-!
Shallow embedding of the `Chekpoint_PyTorch_HDF5` repository
(`src/checkpoint.py` and `src/dic_to_h5.py`) and proofs settling the
frozen claims about it.

Modelling conventions, shared by all definitions below:

* Python values that can appear in a dict tree are modelled by the
  inductive type `PyVal`.  Machine floats never carry information in any
  claim, so no float *values* are modelled; the float *dtype kind* exists
  because `numpy.array([])` produces a float array.
* The numpy array library (an external collaborator of the repository) is
  modelled by `NpArray` (shape, dtype kind, element list) and the generic
  constructor `numpy.array(...)` by `npArrayOf`, on the homogeneous inputs
  the repository feeds it (ints, strings, flat lists of ints or of
  strings, tensors, arrays); the constructor's failure on anything else
  is modelled as an error, matching its documented failure behaviour.
* `numpy.string_(s)` (a fixed-width byte-string scalar) is modelled as
  `NpValue.npBytes s`; the byte encoding itself is the identity on the
  character data.  A numpy scalar has `shape == ()`, modelled as `[]`.
* A torch tensor is `PyVal.vTensor a` with `a` its backing array;
  `.cpu().numpy()` moves it to host memory and exposes that array, which
  is content-preserving, so it is modelled as returning `a`.  Every other
  value has no `cpu` attribute and the attribute access raises
  `AttributeError`, modelled as `PyErr.attrError "cpu"`.
* HDF5 paths: the source accumulates `/`-joined path strings and the
  claims under verification all hypothesise keys without `/`, under which
  hypothesis a path string is isomorphic to its list of segments.  Paths
  are therefore modelled as `List String` (root `"/"` is `[]`, the
  `h5path += "/"` normalisation is the identity of this representation).
* An HDF5 file is a tree of groups and datasets (`H5Tree`); group member
  names are unique in HDF5, children are kept in creation order.  Since
  member names are unique, indexing `h5f[path + "/" + key]` while
  iterating `for key in h5f[path]` retrieves exactly the iterated child.
* `h5py` availability: the source records the import outcome in the
  module-level flag `h5py_missing` / `h5py_import_error`; the flag is
  passed to each modelled entry point as an explicit `h5py_missing :
  Bool` argument, and re-raising `h5py_import_error` is modelled as
  `PyErr.importError`.
* `dump` / `load` / `dicttojson` / `dicttoini` interact with the outside
  world (builtin `open`, stream writes, the logger).  These effects are
  modelled as an event trace (`Ev`): opening and closing files, the
  delegated format-specific operations, and error-severity log records.
-/

set_option autoImplicit false

namespace DictDump

/-- Dtype kind of a modelled numpy array: `'i'`, `'f'`, `'S'` (fixed-width
byte string), `'U'` (unicode string). -/
inductive NpKind where
  | intK
  | floatK
  | bytesK
  | unicodeK
  deriving DecidableEq, Repr

/-- The `dtype.kind` character of each modelled kind. -/
def NpKind.char : NpKind → Char
  | .intK => 'i'
  | .floatK => 'f'
  | .bytesK => 'S'
  | .unicodeK => 'U'

/-- An element stored by a modelled numpy array. -/
inductive NpElem where
  | eInt (n : Int)
  | eStr (s : String)
  deriving DecidableEq, Repr

/-- A numpy `ndarray`: shape, dtype kind and the stored elements.  A
zero-dimensional (scalar) array has `shape = []`. -/
structure NpArray where
  shape : List Nat
  kind : NpKind
  data : List NpElem
  deriving DecidableEq, Repr

/-- A value in the container format's native representation: either an
`ndarray` or a `numpy.string_` fixed-width byte-string scalar. -/
inductive NpValue where
  | ndarray (a : NpArray)
  | npBytes (s : String)
  deriving DecidableEq, Repr

/-- The `.shape` attribute; numpy scalars have shape `()` (here `[]`). -/
def NpValue.shape : NpValue → List Nat
  | .ndarray a => a.shape
  | .npBytes _ => []

/-- Python exceptions raised by the modelled code. -/
inductive PyErr where
  | importError
  | attrError (attr : String)
  | ioError (msg : String)
  | typeError (msg : String)
  | valueError (msg : String)
  deriving DecidableEq, Repr

/-- A Python value usable in a dict tree, plus the numpy values a leaf is
rebound to inside the encoders (`vNpArray`, `vNpBytes`). -/
inductive PyVal where
  | vNone
  | vInt (n : Int)
  | vStr (s : String)
  | vList (elems : List PyVal)
  | vTensor (a : NpArray)
  | vNpArray (a : NpArray)
  | vNpBytes (s : String)
  | vDict (entries : List (String × PyVal))

/-- Entries of a Python dict in iteration order. -/
abbrev Entries := List (String × PyVal)

/-- Helper for `npArrayOf`: a list all of whose members are Python ints. -/
def asInts : List PyVal → Option (List Int)
  | [] => some []
  | .vInt n :: rest => (asInts rest).map (n :: ·)
  | _ => none

/-- Helper for `npArrayOf`: a list all of whose members are Python strings. -/
def asStrs : List PyVal → Option (List String)
  | [] => some []
  | .vStr s :: rest => (asStrs rest).map (s :: ·)
  | _ => none

/-- Model of the generic array constructor `numpy.array(...)` on the value
shapes the repository feeds it: a Python int gives a 0-d integer array, a
Python string a 0-d unicode array, a `numpy.string_` scalar a 0-d
byte-string array, a flat list of ints (resp. strings) a 1-d integer
(resp. unicode) array, the empty list a 1-d empty float array, and a
tensor or ndarray its own backing array.  Anything else is the
constructor's own coercion failure. -/
def npArrayOf : PyVal → Except PyErr NpArray
  | .vInt n => .ok ⟨[], .intK, [.eInt n]⟩
  | .vStr s => .ok ⟨[], .unicodeK, [.eStr s]⟩
  | .vNpBytes s => .ok ⟨[], .bytesK, [.eStr s]⟩
  | .vTensor a => .ok a
  | .vNpArray a => .ok a
  | .vList [] => .ok ⟨[0], .floatK, []⟩
  | .vList (x :: xs) =>
      match asInts (x :: xs) with
      | some ns => .ok ⟨[(x :: xs).length], .intK, ns.map NpElem.eInt⟩
      | none =>
          match asStrs (x :: xs) with
          | some ss => .ok ⟨[(x :: xs).length], .unicodeK, ss.map NpElem.eStr⟩
          | none => .error (.valueError "could not coerce to array")
  | .vNone => .error (.valueError "could not coerce to array")
  | .vDict _ => .error (.valueError "could not coerce to array")

/-- ASCII lower-casing of a character, as used by Python's `str.lower()`
on the ASCII-only strings handled here (dtype kind characters and format
names). -/
def charLower (c : Char) : Char :=
  if 'A' ≤ c ∧ c ≤ 'Z' then Char.ofNat (c.toNat + 32) else c

/-- Model of Python's `str.lower()` on ASCII strings. -/
def strLower (s : String) : String := String.mk (s.toList.map charLower)

/-- Model of `numpy.asarray(array, dtype=numpy.string_)`: the whole array
re-coerced to the fixed-width byte-string dtype. -/
def npAsBytesArray (a : NpArray) : NpArray :=
  ⟨a.shape, .bytesK,
   a.data.map (fun e => match e with
     | .eStr s => .eStr s
     | .eInt n => .eStr (toString n))⟩

namespace Checkpoint

/-- Embedding of `checkpoint.py::_prepare_hdf5_dataset` (lines 58-79).

Steps, in source order:
1. `if isinstance(array_like, string_types): array_like = numpy.string_(array_like)`
2. `if not isinstance(array_like, int): array_like = array_like.cpu().numpy()`
   — only a tensor has a `cpu` attribute; every other non-int value
   (including the `numpy.string_` produced by step 1) raises
   `AttributeError` here.
3. `if not isinstance(array_like, (numpy.ndarray, numpy.string_)): array = numpy.array(array_like) else: array = array_like`
-/
def prepare_hdf5_dataset (array_like : PyVal) : Except PyErr NpValue :=
  let a1 : PyVal :=
    match array_like with
    | .vStr s => .vNpBytes s
    | v => v
  let step2 : Except PyErr PyVal :=
    match a1 with
    | .vInt n => .ok (.vInt n)
    | .vTensor t => .ok (.vNpArray t)
    | _ => .error (.attrError "cpu")
  step2.bind fun a2 =>
    match a2 with
    | .vNpArray arr => .ok (.ndarray arr)
    | .vNpBytes s => .ok (.npBytes s)
    | v => (npArrayOf v).map .ndarray

end Checkpoint

namespace DicToH5

/-- Embedding of the first half of `dic_to_h5.py::_prepare_hdf5_dataset`
(lines 37-45): the string-scalar conversion followed by the coercion into
a native array.

1. `if isinstance(array_like, string_types): array_like = numpy.string_(array_like)`
2. `if not isinstance(array_like, (numpy.ndarray, numpy.string_)): array = numpy.array(array_like) else: array = array_like`
-/
def toNativeArray (array_like : PyVal) : Except PyErr NpValue :=
  let a1 : PyVal :=
    match array_like with
    | .vStr s => .vNpBytes s
    | v => v
  match a1 with
  | .vNpArray arr => .ok (.ndarray arr)
  | .vNpBytes s => .ok (.npBytes s)
  | v => (npArrayOf v).map .ndarray

/-- Embedding of the second half of `dic_to_h5.py::_prepare_hdf5_dataset`
(lines 47-55): for a non-scalar result, if `array.dtype.kind.lower()` is
`"s"` or `"u"` the array is re-coerced via
`numpy.asarray(array, dtype=numpy.string_)`. -/
def textualFix (array : NpValue) : NpValue :=
  match array with
  | .npBytes s => .npBytes s
  | .ndarray a =>
      if charLower a.kind.char ∈ ['s', 'u'] then .ndarray (npAsBytesArray a)
      else .ndarray a

/-- Embedding of `dic_to_h5.py::_prepare_hdf5_dataset` (lines 30-55): the
two halves composed as in the source. -/
def prepare_hdf5_dataset (array_like : PyVal) : Except PyErr NpValue :=
  (toNativeArray array_like).map textualFix

end DicToH5

/-- Keyword arguments forwarded verbatim to `h5f.create_dataset`
(`create_dataset_args`), e.g. compression parameters; their content is
never inspected by the repository. -/
abbrev DsArgs := List (String × String)

/-- An HDF5 file (or sub-group): a tree of named groups and datasets.
Group member names are unique; children are kept in creation order.  A
dataset records its stored value and which optional dataset-creation
arguments were passed to `create_dataset` for it. -/
inductive H5Tree where
  | group (children : List (String × H5Tree))
  | dataset (d : NpValue) (args : Option DsArgs)

/-- First value bound to `k` in an association list (unique keys make the
first occurrence the only one). -/
def alookup {α : Type} : List (String × α) → String → Option α
  | [], _ => none
  | (k', v) :: rest, k => if k' = k then some v else alookup rest k

/-- Keys of an association list, in order. -/
def akeys {α : Type} (l : List (String × α)) : List String := l.map (·.1)

/-- Replace the first binding of `k` by `v`, keeping the position. -/
def areplace {α : Type} : List (String × α) → String → α → List (String × α)
  | [], _, _ => []
  | (k', v') :: rest, k, v =>
      if k' = k then (k', v) :: rest else (k', v') :: areplace rest k v

/-- Node lookup by path from a tree. -/
def H5Tree.lookupPath : H5Tree → List String → Option H5Tree
  | t, [] => some t
  | .group cs, k :: rest =>
      match alookup cs k with
      | some sub => sub.lookupPath rest
      | none => none
  | .dataset _ _, _ :: _ => none

/-- Model of `h5py`'s `create_group` / `create_dataset` at an absolute
path: intermediate groups are created automatically, the final name must
not already exist, and descending into a dataset fails. -/
def H5Tree.createAt : H5Tree → List String → H5Tree → Except PyErr H5Tree
  | .group cs, [k], node =>
      if (alookup cs k).isSome then .error (.valueError "name already exists")
      else .ok (.group (cs ++ [(k, node)]))
  | .group cs, k :: k' :: rest, node =>
      match alookup cs k with
      | some sub =>
          (sub.createAt (k' :: rest) node).map fun sub' => .group (areplace cs k sub')
      | none =>
          ((H5Tree.group []).createAt (k' :: rest) node).map fun sub' =>
            .group (cs ++ [(k, sub')])
  | .group _, [], _ => .error (.valueError "empty path")
  | .dataset _ _, _, _ => .error (.valueError "not a group")

/-- Substring containment test (Python's `filter_str in name`). -/
def strOccursIn (needle hay : String) : Bool :=
  hay.toList.tails.any (fun t => needle.toList.isPrefixOf t)

namespace Checkpoint

mutual

/-- Embedding of the body of the `for key in treedict` loop of
`checkpoint.py::save_checkpoint` (lines 108-128) for a single key/value
pair, at current group path `h5path`:

* `isinstance(treedict[key], dict) and len(treedict[key])` → recurse with
  the same handle and `h5path + key`;
* `treedict[key] is None or (isinstance(treedict[key], dict) and not len(treedict[key]))`
  → `h5f.create_group(h5path + key)`;
* otherwise → `ds = _prepare_hdf5_dataset(treedict[key])`, then
  `h5f.create_dataset(h5path + key, data=ds)` without the optional
  arguments when `ds.shape == ()` or none were supplied, and with them
  otherwise. -/
def saveOne (key : String) (v : PyVal) (h5f : H5Tree) (h5path : List String)
    (overwrite_data : Bool) (create_dataset_args : Option DsArgs) :
    Except PyErr H5Tree :=
  match v with
  | .vDict es =>
      if es.length ≠ 0 then
        saveEntries es h5f (h5path ++ [key]) overwrite_data create_dataset_args
      else h5f.createAt (h5path ++ [key]) (.group [])
  | .vNone => h5f.createAt (h5path ++ [key]) (.group [])
  | leaf =>
      (prepare_hdf5_dataset leaf).bind fun ds =>
        if ds.shape = [] ∨ create_dataset_args = none then
          h5f.createAt (h5path ++ [key]) (.dataset ds none)
        else h5f.createAt (h5path ++ [key]) (.dataset ds create_dataset_args)

/-- The `for key in treedict` loop of `checkpoint.py::save_checkpoint`,
iterating the dict entries in order and threading the file state.  The
recursive call of the source re-checks the module-level `h5py_missing`
flag; the flag is constant during a call, so the re-check is a no-op and
is performed once in the wrapper `save_checkpoint` below. -/
def saveEntries (treedict : Entries) (h5f : H5Tree) (h5path : List String)
    (overwrite_data : Bool) (create_dataset_args : Option DsArgs) :
    Except PyErr H5Tree :=
  match treedict with
  | [] => .ok h5f
  | (key, v) :: rest =>
      (saveOne key v h5f h5path overwrite_data create_dataset_args).bind fun h5f' =>
        saveEntries rest h5f' h5path overwrite_data create_dataset_args

end

/-- Embedding of `checkpoint.py::save_checkpoint` (lines 82-131) acting on
an open file handle: raise the import error when `h5py` is missing, then
run the write loop.  Opening/closing a destination given as a filename is
the wrapper behaviour around this and does not change the file tree. -/
def save_checkpoint (h5py_missing : Bool) (treedict : Entries) (h5f : H5Tree)
    (h5path : List String) (overwrite_data : Bool := false)
    (create_dataset_args : Option DsArgs := none) : Except PyErr H5Tree :=
  if h5py_missing then .error .importError
  else saveEntries treedict h5f h5path overwrite_data create_dataset_args

/-- Embedding of `checkpoint.py::_name_contains_string_in_list`
(lines 133-139). -/
def name_contains_string_in_list (name : String) (strlist : Option (List String)) :
    Bool :=
  match strlist with
  | none => false
  | some l => l.any (fun filter_str => strOccursIn filter_str name)

mutual

/-- Embedding of the body of the `for key in h5f[path]` loop of
`checkpoint.py::load_checkpoint` (lines 183-192) for one child.  HDF5
member names are unique, so `h5f[path + "/" + key]` is exactly the child
being iterated; the embedding therefore receives the child node.  A group
child recurses; a dataset child is read (`[...]`) and converted by
`torch.from_numpy`, which accepts numeric arrays and rejects byte-string
data. -/
def loadOne (child : H5Tree) (exclude_names : Option (List String)) :
    Except PyErr PyVal :=
  match child with
  | .group cs => (loadEntries cs exclude_names).map .vDict
  | .dataset (.ndarray a) _ => .ok (.vTensor a)
  | .dataset (.npBytes _) _ =>
      .error (.typeError "can't convert np.bytes_ to a tensor")

/-- The `for key in h5f[path]` loop of `checkpoint.py::load_checkpoint`:
iterate the children of the addressed group in order, skip a child whose
name matches `exclude_names`, recurse into groups
(`is_group(h5f[path + "/" + key])`), convert datasets to tensors, and
collect the results into an order-preserving mapping. -/
def loadEntries (children : List (String × H5Tree))
    (exclude_names : Option (List String)) : Except PyErr Entries :=
  match children with
  | [] => .ok []
  | (key, child) :: rest =>
      if name_contains_string_in_list key exclude_names then
        loadEntries rest exclude_names
      else
        (loadOne child exclude_names).bind fun v =>
          (loadEntries rest exclude_names).map fun r => (key, v) :: r

end

/-- Embedding of `checkpoint.py::load_checkpoint` (lines 142-200) acting
on an open handle: raise the import error when `h5py` is missing, address
`h5f[path]` and run the read loop there.  Opening/closing a source given
as a filename is the wrapper behaviour around this and does not change
the produced mapping. -/
def load_checkpoint (h5py_missing : Bool) (h5f : H5Tree) (path : List String)
    (exclude_names : Option (List String) := none) : Except PyErr PyVal :=
  if h5py_missing then .error .importError
  else
    match h5f.lookupPath path with
    | none => .error (.valueError "path not found")
    | some (.dataset _ _) => .error (.typeError "not a group")
    | some (.group cs) => (loadEntries cs exclude_names).map .vDict

end Checkpoint

namespace DicToH5

mutual

/-- Embedding of the body of the `for key in treedict` loop of
`dic_to_h5.py::dicttoh5` (lines 126-148) for a single key/value pair; the
control flow is identical to `Checkpoint.saveOne`, with this module's
leaf encoder. -/
def saveOne (key : String) (v : PyVal) (h5f : H5Tree) (h5path : List String)
    (overwrite_data : Bool) (create_dataset_args : Option DsArgs) :
    Except PyErr H5Tree :=
  match v with
  | .vDict es =>
      if es.length ≠ 0 then
        saveEntries es h5f (h5path ++ [key]) overwrite_data create_dataset_args
      else h5f.createAt (h5path ++ [key]) (.group [])
  | .vNone => h5f.createAt (h5path ++ [key]) (.group [])
  | leaf =>
      (prepare_hdf5_dataset leaf).bind fun ds =>
        if ds.shape = [] ∨ create_dataset_args = none then
          h5f.createAt (h5path ++ [key]) (.dataset ds none)
        else h5f.createAt (h5path ++ [key]) (.dataset ds create_dataset_args)

/-- The `for key in treedict` loop of `dic_to_h5.py::dicttoh5`. -/
def saveEntries (treedict : Entries) (h5f : H5Tree) (h5path : List String)
    (overwrite_data : Bool) (create_dataset_args : Option DsArgs) :
    Except PyErr H5Tree :=
  match treedict with
  | [] => .ok h5f
  | (key, v) :: rest =>
      (saveOne key v h5f h5path overwrite_data create_dataset_args).bind fun h5f' =>
        saveEntries rest h5f' h5path overwrite_data create_dataset_args

end

/-- Embedding of `dic_to_h5.py::dicttoh5` (lines 58-151) acting on an open
file handle: raise the import error when `h5py` is missing, then run the
write loop. -/
def dicttoh5 (h5py_missing : Bool) (treedict : Entries) (h5f : H5Tree)
    (h5path : List String) (overwrite_data : Bool := false)
    (create_dataset_args : Option DsArgs := none) : Except PyErr H5Tree :=
  if h5py_missing then .error .importError
  else saveEntries treedict h5f h5path overwrite_data create_dataset_args

/-- Embedding of `dic_to_h5.py::_name_contains_string_in_list`
(lines 154-160), a duplicate of the checkpoint module's filter. -/
def name_contains_string_in_list (name : String) (strlist : Option (List String)) :
    Bool :=
  match strlist with
  | none => false
  | some l => l.any (fun filter_str => strOccursIn filter_str name)

end DicToH5

/-- A Python file-like object as the façades see it: which of the `write`
and `read` attributes it has, and its optional `name` attribute. -/
structure StreamObj where
  hasWrite : Bool
  hasRead : Bool
  name : Option String
  deriving DecidableEq, Repr

/-- A destination/source argument: a filename string or a file-like
object.  A string has neither a `write` nor a `read` attribute. -/
inductive FileArg where
  | path (s : String)
  | handle (h : StreamObj)
  deriving DecidableEq, Repr

/-- Observable side effects of the façades: builtin `open`/`close` calls,
error-severity log records, and the delegated format-specific operations
(§4.1.5/§4.1.6 writes, `json.load`, `ConfigDict`, and the container
read/write functions modelled above). -/
inductive Ev where
  | openFile (name : String) (mode : String)
  | closeFile (name : String)
  | logError (msg : String)
  | jsonDump (indent : Option Nat)
  | iniWrite
  | h5Save (mode : String)
  | jsonLoad
  | iniLoad (fname : String)
  | h5Load (fname : String)
  deriving DecidableEq, Repr

/-- What `load` returns on success: the parsed JSON mapping, the
`ConfigDict` built from the filename, or the mapping produced by
`load_checkpoint` on the named file. -/
inductive LoadOut where
  | jsonLoaded
  | iniLoaded (fname : String)
  | h5Loaded (fname : String)
  deriving DecidableEq, Repr

/-- Model of `os.path.splitext(p)[1][1:]`: the characters of the last
extension of `p`, without its leading dot.  Python's rule: the extension
is the suffix from the last `.` of the basename, provided some character
of the basename strictly before that dot is not itself a dot (so hidden
files like `.bashrc` and names like `..x` have no extension). -/
def extAfterDot (p : String) : String :=
  let base := p.toList.foldl (fun acc c => if c = '/' then [] else acc ++ [c]) []
  match base.reverse.span (· ≠ '.') with
  | (_, []) => ""
  | (extRev, _ :: headRev) =>
      if headRev.any (· ≠ '.') then String.mk extRev.reverse else ""

/-- Embedding of `checkpoint.py::dicttojson` (lines 203-224): open the
destination when it is not a stream with a `write` attribute, serialize
with the given indent, and close the destination only if it was opened
here.  Serialization itself always delegates to `json.dump`, recorded as
an event; calling builtin `open` on a non-string object fails. -/
def dicttojson (jsonfile : FileArg) (indent : Option Nat) (mode : String) :
    List Ev × Except PyErr Unit :=
  match jsonfile with
  | .path s => ([.openFile s mode, .jsonDump indent, .closeFile s], .ok ())
  | .handle h =>
      if h.hasWrite then ([.jsonDump indent], .ok ())
      else ([], .error (.typeError "expected str, bytes or os.PathLike object"))

/-- Embedding of `checkpoint.py::dicttoini` (lines 227-244), with the
`ConfigDict(initdict=ddict).write(inif)` call recorded as an event. -/
def dicttoini (inifile : FileArg) (mode : String) :
    List Ev × Except PyErr Unit :=
  match inifile with
  | .path s => ([.openFile s mode, .iniWrite, .closeFile s], .ok ())
  | .handle h =>
      if h.hasWrite then ([.iniWrite], .ok ())
      else ([], .error (.typeError "expected str, bytes or os.PathLike object"))

/-- Model of `getattr(ffile, 'name', ffile)` followed by
`os.path.splitext(filename)[1][1:]` in `dump` (lines 262-263): for a
stream without a `name` attribute the `getattr` default returns the
stream object itself, and `os.path.splitext` then rejects the non-string
argument. -/
def inferredFormat (ffile : FileArg) : Except PyErr String :=
  match ffile with
  | .path s => .ok (extAfterDot s)
  | .handle h =>
      match h.name with
      | some n => .ok (extAfterDot n)
      | none => .error (.typeError "expected str, bytes or os.PathLike object")

/-- Embedding of `checkpoint.py::dump` (lines 247-276): resolve the format
(explicit argument, else the filename extension), lower-case it, and
dispatch.  The `hdf5`/`h5` branch logs and re-raises the import error
when `h5py` is missing, and otherwise calls `save_checkpoint(ddict,
ffile, mode=mode)` (recorded as an event; the write itself is modelled by
`Checkpoint.save_checkpoint`).  An unrecognized format raises
`IOError("Unknown format " + fmat)`. -/
def dump (h5py_missing : Bool) (ffile : FileArg) (mode : String)
    (fmat : Option String) : List Ev × Except PyErr Unit :=
  let fmatRes : Except PyErr String :=
    match fmat with
    | some f => .ok f
    | none => inferredFormat ffile
  match fmatRes with
  | .error e => ([], .error e)
  | .ok fmat0 =>
      let fm := strLower fmat0
      if fm = "json" then dicttojson ffile (some 2) mode
      else if fm = "hdf5" ∨ fm = "h5" then
        if h5py_missing then
          ([.logError "Cannot dump to HDF5 format, missing h5py library"],
           .error .importError)
        else ([.h5Save mode], .ok ())
      else if fm = "ini" ∨ fm = "cfg" then dicttoini ffile mode
      else ([], .error (.ioError ("Unknown format " ++ fm)))

/-- Embedding of `checkpoint.py::load` (lines 279-314).  In source order:
if the source has no `read` attribute it is opened as a text file (an
event) and its own value is the resolved filename, else the stream is
used and the resolved filename is `ffile.name` — read unconditionally,
so a stream without a `name` attribute raises `AttributeError` here.
Then the format is resolved (explicit, else the extension of the
resolved filename), lower-cased, and dispatched; the `hdf5`/`h5` branch
logs and re-raises the import error when `h5py` is missing.  No branch
closes the file handle opened by this function. -/
def load (h5py_missing : Bool) (ffile : FileArg) (fmat : Option String) :
    List Ev × Except PyErr LoadOut :=
  let opened : Except PyErr (List Ev × String) :=
    match ffile with
    | .path s => .ok ([.openFile s "r"], s)
    | .handle h =>
        if h.hasRead then
          match h.name with
          | some n => .ok ([], n)
          | none => .error (.attrError "name")
        else .error (.typeError "expected str, bytes or os.PathLike object")
  match opened with
  | .error e => ([], .error e)
  | .ok (ev0, fname) =>
      let fm := strLower (match fmat with | some f => f | none => extAfterDot fname)
      if fm = "json" then (ev0 ++ [.jsonLoad], .ok .jsonLoaded)
      else if fm = "hdf5" ∨ fm = "h5" then
        if h5py_missing then
          (ev0 ++ [.logError "Cannot load from HDF5 format, missing h5py library"],
           .error .importError)
        else (ev0 ++ [.h5Load fname], .ok (.h5Loaded fname))
      else if fm = "ini" ∨ fm = "cfg" then (ev0 ++ [.iniLoad fname], .ok (.iniLoaded fname))
      else (ev0, .error (.ioError ("Unknown format " ++ fm)))

/-! ### Statement-level predicates and proof scaffolding

The definitions below are not embeddings of source functions; they state
the properties the claims talk about (tree validity, round-trip
correspondence, dataset-argument bookkeeping) and the intermediate
characterisation of the file a writer builds. -/

/-- A leaf the checkpoint module's encoder can actually process: a Python
int, or a numeric (integer or float dtype) torch tensor. -/
def numericLeaf : PyVal → Bool
  | .vInt _ => true
  | .vTensor a => decide (a.kind = .intK ∨ a.kind = .floatK)
  | _ => false

mutual

/-- A valid dict-tree value for the amended round-trip claim: nested dicts
whose keys are `/`-free and unique within their parent, with numeric
leaves. -/
def validVal : PyVal → Bool
  | .vDict es => validEntries es
  | v => numericLeaf v

/-- Validity of a dict's entry list (see `validVal`). -/
def validEntries : Entries → Bool
  | [] => true
  | (k, v) :: rest =>
      !(strOccursIn "/" k) && (alookup rest k).isNone && validVal v &&
        validEntries rest

end

mutual

/-- Dict-tree values whose leaves are all numeric (ints or numeric
tensors): the trees of the amended legacy-equivalence claim. -/
def numericOnlyVal : PyVal → Bool
  | .vDict es => numericOnlyEntries es
  | v => numericLeaf v

/-- Entry-list version of `numericOnlyVal`. -/
def numericOnlyEntries : Entries → Bool
  | [] => true
  | (_, v) :: rest => numericOnlyVal v && numericOnlyEntries rest

end

mutual

/-- Round-trip correspondence between an original dict-tree value and the
value read back: sub-dicts correspond key-by-key in order (same keys,
same nesting structure), and a leaf is read back as a tensor whose plain
in-memory array equals the array form (`numpy.array(...)`) of the
original leaf. -/
def roundTripVal : PyVal → PyVal → Bool
  | .vDict es, .vDict es' => roundTripEntries es es'
  | .vDict _, _ => false
  | v, .vTensor b => match npArrayOf v with
      | .ok c => decide (c = b)
      | .error _ => false
  | _, _ => false

/-- Entry-list version of `roundTripVal`. -/
def roundTripEntries : Entries → Entries → Bool
  | [], [] => true
  | (k, v) :: r, (k', v') :: r' =>
      decide (k = k') && roundTripVal v v' && roundTripEntries r r'
  | _, _ => false

end

mutual

/-- The value `load_checkpoint` reads back for a valid written value:
dicts become dicts, an int leaf becomes a 0-d integer tensor, a tensor
leaf comes back as an equal tensor. -/
def rtImageVal : PyVal → PyVal
  | .vDict es => .vDict (rtImageEntries es)
  | .vInt n => .vTensor ⟨[], .intK, [.eInt n]⟩
  | .vTensor a => .vTensor a
  | v => v

/-- Entry-list version of `rtImageVal`. -/
def rtImageEntries : Entries → Entries
  | [] => []
  | (k, v) :: rest => (k, rtImageVal v) :: rtImageEntries rest

end

mutual

/-- The HDF5 node `save_checkpoint` builds for one dict-tree value: a
group for a (non-)empty dict or the `None` sentinel, and a dataset
carrying the encoded leaf otherwise, with the dataset-creation arguments
recorded exactly when the encoded value is not zero-dimensional and
arguments were supplied.  (For a leaf the encoder rejects, the fallback
`group []` is never reached under `validVal`.) -/
def expectedNode (args : Option DsArgs) : PyVal → H5Tree
  | .vDict [] => .group []
  | .vDict (e :: es) => .group (expectedEntries args (e :: es))
  | .vNone => .group []
  | v =>
      match Checkpoint.prepare_hdf5_dataset v with
      | .ok ds => .dataset ds (if ds.shape = [] ∨ args = none then none else args)
      | .error _ => .group []

/-- The children `save_checkpoint` appends at its target path for a dict's
entry list. -/
def expectedEntries (args : Option DsArgs) : Entries → List (String × H5Tree)
  | [] => []
  | (k, v) :: rest => (k, expectedNode args v) :: expectedEntries args rest

end

/-- Append children `xs` to the group addressed by `p`, materialising
intermediate groups of `p` that do not exist yet (the net effect of the
`createAt` calls a writer performs under a fresh path). -/
def placeAt : H5Tree → List String → List (String × H5Tree) → H5Tree
  | .group cs, [], xs => .group (cs ++ xs)
  | .group cs, k :: rest, xs =>
      match alookup cs k with
      | some sub => .group (areplace cs k (placeAt sub rest xs))
      | none => .group (cs ++ [(k, placeAt (.group []) rest xs)])
  | .dataset d a, _, _ => .dataset d a

/-- The path `p` is writable in `f` for the fresh names `ks`: following
`p` meets only groups, and either some segment of `p` does not exist yet
(everything below is fresh) or the addressed group exists and has no
member named by any `k ∈ ks`. -/
def FreshPath : H5Tree → List String → List String → Prop
  | .group cs, [], ks => ∀ k ∈ ks, alookup cs k = none
  | .group cs, k :: rest, ks =>
      match alookup cs k with
      | some sub => FreshPath sub rest ks
      | none => True
  | .dataset _ _, _, _ => False

mutual

/-- Every dataset in the tree records the optional creation arguments
according to the scalar rule: nothing for a zero-dimensional encoded
value, the supplied arguments otherwise. -/
def dsOkNode (args : Option DsArgs) : H5Tree → Bool
  | .dataset d rec => decide (rec = if d.shape = [] then none else args)
  | .group cs => dsOkChildren args cs

/-- Children version of `dsOkNode`. -/
def dsOkChildren (args : Option DsArgs) : List (String × H5Tree) → Bool
  | [] => true
  | (_, c) :: rest => dsOkNode args c && dsOkChildren args rest

end

/-! ### Association-list lemmas -/

theorem alookup_nil {α : Type} {k : String} : alookup ([] : List (String × α)) k = none := rfl

theorem alookup_cons_self {α : Type} {rest : List (String × α)} {k : String} {v : α} :
    alookup ((k, v) :: rest) k = some v := by simp [alookup]

theorem alookup_append_of_none {α : Type} {cs ds : List (String × α)} {k : String}
    (h : alookup cs k = none) : alookup (cs ++ ds) k = alookup ds k := by
  induction cs with
  | nil => rfl
  | cons e rest ih =>
      obtain ⟨k', v⟩ := e
      by_cases hk : k' = k
      · simp [alookup, hk] at h
      · simp only [List.cons_append, alookup, if_neg hk] at h ⊢
        exact ih h

theorem areplace_areplace {α : Type} {cs : List (String × α)} {k : String} {a b : α} :
    areplace (areplace cs k a) k b = areplace cs k b := by
  induction cs with
  | nil => rfl
  | cons e rest ih =>
      obtain ⟨k', v⟩ := e
      by_cases hk : k' = k
      · simp [areplace, hk]
      · simp [areplace, hk, ih]

theorem alookup_areplace_self {α : Type} {cs : List (String × α)} {k : String} {v w : α}
    (h : alookup cs k = some v) : alookup (areplace cs k w) k = some w := by
  induction cs with
  | nil => simp [alookup] at h
  | cons e rest ih =>
      obtain ⟨k', v'⟩ := e
      by_cases hk : k' = k
      · simp [areplace, alookup, hk]
      · simp only [alookup, if_neg hk] at h
        simp [areplace, alookup, hk, ih h]

theorem areplace_of_alookup_eq {α : Type} {cs : List (String × α)} {k : String} {v : α}
    (h : alookup cs k = some v) : areplace cs k v = cs := by
  induction cs with
  | nil => rfl
  | cons e rest ih =>
      obtain ⟨k', v'⟩ := e
      by_cases hk : k' = k
      · simp only [alookup, if_pos hk, Option.some.injEq] at h
        simp [areplace, hk, h]
      · simp only [alookup, if_neg hk] at h
        simp [areplace, hk, ih h]

theorem areplace_append_of_none {α : Type} {cs : List (String × α)} {k : String} {a b : α}
    (h : alookup cs k = none) : areplace (cs ++ [(k, a)]) k b = cs ++ [(k, b)] := by
  induction cs with
  | nil => simp [areplace]
  | cons e rest ih =>
      obtain ⟨k', v'⟩ := e
      by_cases hk : k' = k
      · simp [alookup, hk] at h
      · simp only [alookup, if_neg hk] at h
        simp [areplace, hk, ih h]

/-! ### `FreshPath` and `placeAt` lemmas -/

theorem freshPath_empty_group {p ks : List String} : FreshPath (.group []) p ks := by
  cases p with
  | nil => intro k _; rfl
  | cons k rest => simp [FreshPath, alookup]

theorem freshPath_mono {f : H5Tree} {p ks ks' : List String}
    (hsub : ∀ k, k ∈ ks' → k ∈ ks) (h : FreshPath f p ks) : FreshPath f p ks' := by
  induction p generalizing f with
  | nil =>
      cases f with
      | group cs => exact fun k hk => h k (hsub k hk)
      | dataset d a => exact absurd h (by simp [FreshPath])
  | cons k rest ih =>
      cases f with
      | group cs =>
          rcases hl : alookup cs k with _ | sub
          · simp [FreshPath, hl]
          · simp only [FreshPath, hl] at h ⊢
            exact ih h
      | dataset d a => exact absurd h (by simp [FreshPath])

theorem freshPath_extend {f : H5Tree} {p ks : List String} {k : String}
    (h : FreshPath f p ks) (hk : k ∈ ks) {ks2 : List String} :
    FreshPath f (p ++ [k]) ks2 := by
  induction p generalizing f with
  | nil =>
      cases f with
      | group cs => simp [FreshPath, h k hk]
      | dataset d a => exact absurd h (by simp [FreshPath])
  | cons k' rest ih =>
      cases f with
      | group cs =>
          rcases hl : alookup cs k' with _ | sub
          · simp [FreshPath, hl]
          · simp only [List.cons_append, FreshPath, hl] at h ⊢
            exact ih h
      | dataset d a => exact absurd h (by simp [FreshPath])

theorem freshPath_placeAt {f : H5Tree} {p ks : List String} {k : String} {n : H5Tree}
    (h : FreshPath f p ks) (hk : k ∉ ks) : FreshPath (placeAt f p [(k, n)]) p ks := by
  induction p generalizing f with
  | nil =>
      cases f with
      | group cs =>
          intro k' hk'
          have hne : k ≠ k' := fun hkk => hk (hkk ▸ hk')
          show alookup (cs ++ [(k, n)]) k' = none
          rw [alookup_append_of_none (h k' hk')]
          simp [alookup, hne]
      | dataset d a => exact absurd h (by simp [FreshPath])
  | cons k' rest ih =>
      cases f with
      | group cs =>
          rcases hl : alookup cs k' with _ | sub
          · simp only [placeAt, hl]
            have hself : alookup (cs ++ [(k', placeAt (.group []) rest [(k, n)])]) k' =
                some (placeAt (.group []) rest [(k, n)]) := by
              rw [alookup_append_of_none hl]; exact alookup_cons_self
            simp only [FreshPath, hself]
            exact ih freshPath_empty_group
          · simp only [FreshPath, hl] at h
            simp only [placeAt, hl]
            have hself := alookup_areplace_self (w := placeAt sub rest [(k, n)]) hl
            simp only [FreshPath, hself]
            exact ih h
      | dataset d a => exact absurd h (by simp [FreshPath])

theorem lookupPath_placeAt {f : H5Tree} {p ks : List String}
    {xs : List (String × H5Tree)} (h : FreshPath f p ks) :
    ∃ cs, (placeAt f p xs).lookupPath p = some (.group cs) := by
  induction p generalizing f with
  | nil =>
      cases f with
      | group cs => exact ⟨cs ++ xs, rfl⟩
      | dataset d a => exact absurd h (by simp [FreshPath])
  | cons k rest ih =>
      cases f with
      | group cs =>
          rcases hl : alookup cs k with _ | sub
          · simp only [placeAt, hl]
            have hself : alookup (cs ++ [(k, placeAt (.group []) rest xs)]) k =
                some (placeAt (.group []) rest xs) := by
              rw [alookup_append_of_none hl]; exact alookup_cons_self
            simp only [H5Tree.lookupPath, hself]
            exact ih freshPath_empty_group
          · simp only [FreshPath, hl] at h
            simp only [placeAt, hl]
            have hself := alookup_areplace_self (w := placeAt sub rest xs) hl
            simp only [H5Tree.lookupPath, hself]
            exact ih h
      | dataset d a => exact absurd h (by simp [FreshPath])

theorem placeAt_nil {f : H5Tree} {p : List String} {t' : H5Tree}
    (h : f.lookupPath p = some t') : placeAt f p [] = f := by
  induction p generalizing f with
  | nil =>
      cases f with
      | group cs => simp [placeAt]
      | dataset d a => rfl
  | cons k rest ih =>
      cases f with
      | group cs =>
          rcases hl : alookup cs k with _ | sub
          · simp [H5Tree.lookupPath, hl] at h
          · simp only [H5Tree.lookupPath, hl] at h
            simp only [placeAt, hl, ih h, areplace_of_alookup_eq hl]
      | dataset d a => simp [H5Tree.lookupPath] at h

theorem placeAt_append {f : H5Tree} {p : List String} {xs ys : List (String × H5Tree)} :
    placeAt (placeAt f p xs) p ys = placeAt f p (xs ++ ys) := by
  induction p generalizing f with
  | nil =>
      cases f with
      | group cs => simp [placeAt]
      | dataset d a => rfl
  | cons k rest ih =>
      cases f with
      | group cs =>
          rcases hl : alookup cs k with _ | sub
          · simp only [placeAt, hl]
            have hself : alookup (cs ++ [(k, placeAt (.group []) rest xs)]) k =
                some (placeAt (.group []) rest xs) := by
              rw [alookup_append_of_none hl]; exact alookup_cons_self
            simp only [placeAt, hself, ih, areplace_append_of_none hl]
          · simp only [placeAt, hl]
            have hself := alookup_areplace_self (w := placeAt sub rest xs) hl
            simp only [placeAt, hself, ih, areplace_areplace]
      | dataset d a => rfl

theorem placeAt_snoc_key {f : H5Tree} {p : List String} {k : String}
    {xs : List (String × H5Tree)} (h : FreshPath f p [k]) :
    placeAt f (p ++ [k]) xs = placeAt f p [(k, .group xs)] := by
  induction p generalizing f with
  | nil =>
      cases f with
      | group cs =>
          have hnone : alookup cs k = none := h k (by simp)
          simp [placeAt, hnone]
      | dataset d a => exact absurd h (by simp [FreshPath])
  | cons k' rest ih =>
      cases f with
      | group cs =>
          rcases hl : alookup cs k' with _ | sub
          · simp only [List.cons_append, placeAt, hl, List.append_eq]
            rw [ih freshPath_empty_group]
          · simp only [FreshPath, hl] at h
            simp only [List.cons_append, placeAt, hl, List.append_eq]
            rw [ih h]
      | dataset d a => exact absurd h (by simp [FreshPath])

theorem createAt_fresh {f : H5Tree} {p : List String} {k : String} {n : H5Tree}
    (h : FreshPath f p [k]) : f.createAt (p ++ [k]) n = .ok (placeAt f p [(k, n)]) := by
  induction p generalizing f with
  | nil =>
      cases f with
      | group cs =>
          have hnone : alookup cs k = none := h k (by simp)
          simp [H5Tree.createAt, hnone, placeAt]
      | dataset d a => exact absurd h (by simp [FreshPath])
  | cons k' rest ih =>
      cases f with
      | group cs =>
          have hcons : ∃ a b, rest ++ [k] = a :: b := by
            cases rest with
            | nil => exact ⟨k, [], rfl⟩
            | cons r rs => exact ⟨r, rs ++ [k], rfl⟩
          obtain ⟨a, b, hab⟩ := hcons
          rcases hl : alookup cs k' with _ | sub
          · rw [List.cons_append, hab]
            simp only [H5Tree.createAt, hl]
            rw [← hab, ih freshPath_empty_group]
            simp [Except.map, placeAt, hl]
          · simp only [FreshPath, hl] at h
            rw [List.cons_append, hab]
            simp only [H5Tree.createAt, hl]
            rw [← hab, ih h]
            simp [Except.map, placeAt, hl]
      | dataset d a => exact absurd h (by simp [FreshPath])

theorem alookup_isNone_not_mem {α : Type} {l : List (String × α)} {k : String}
    (h : (alookup l k).isNone = true) : k ∉ akeys l := by
  induction l with
  | nil => simp [akeys]
  | cons e rest ih =>
      obtain ⟨k', v⟩ := e
      by_cases hk : k' = k
      · simp [alookup, hk] at h
      · simp only [alookup, if_neg hk] at h
        simp only [akeys, List.map_cons, List.mem_cons]
        rintro (hkk | hkk)
        · exact hk hkk.symm
        · exact ih h hkk

/-! ### Correctness of the checkpoint writer on valid trees -/

mutual

/-- `saveOne` on a valid value under a fresh name appends exactly the
expected node for that value at the target path. -/
theorem saveOne_correct (ow : Bool) (args : Option DsArgs) (k : String) (v : PyVal)
    (f : H5Tree) (p : List String) (hv : validVal v = true) (hf : FreshPath f p [k]) :
    Checkpoint.saveOne k v f p ow args = .ok (placeAt f p [(k, expectedNode args v)]) := by
  cases v with
  | vDict es =>
      cases es with
      | nil =>
          simp only [Checkpoint.saveOne, List.length_nil, ne_eq, not_true_eq_false,
            if_false, expectedNode]
          exact createAt_fresh hf
      | cons e es' =>
          have hv' : validEntries (e :: es') = true := hv
          have hres := saveEntries_correct ow args (e :: es') f (p ++ [k])
            hv' (freshPath_extend hf (by simp)) (Or.inr (by simp))
          simp only [Checkpoint.saveOne, List.length_cons, ne_eq, Nat.succ_ne_zero,
            not_false_eq_true, if_true, expectedNode]
          rw [hres, placeAt_snoc_key hf]
  | vNone => simp [validVal, numericLeaf] at hv
  | vStr s => simp [validVal, numericLeaf] at hv
  | vList l => simp [validVal, numericLeaf] at hv
  | vNpArray a => simp [validVal, numericLeaf] at hv
  | vNpBytes s => simp [validVal, numericLeaf] at hv
  | vInt n =>
      have hprep : Checkpoint.prepare_hdf5_dataset (.vInt n) =
          .ok (.ndarray ⟨[], .intK, [.eInt n]⟩) := rfl
      simp only [Checkpoint.saveOne, hprep, Except.bind, expectedNode, NpValue.shape,
        true_or, if_pos, if_true]
      exact createAt_fresh hf
  | vTensor a =>
      have hprep : Checkpoint.prepare_hdf5_dataset (.vTensor a) =
          .ok (.ndarray a) := rfl
      simp only [Checkpoint.saveOne, hprep, Except.bind, expectedNode, NpValue.shape]
      by_cases hc : a.shape = [] ∨ args = none
      · rw [if_pos hc, if_pos hc]
        exact createAt_fresh hf
      · rw [if_neg hc, if_neg hc]
        exact createAt_fresh hf

/-- The write loop of `save_checkpoint` on a valid entry list under a
fresh path appends exactly the expected children at the target path. -/
theorem saveEntries_correct (ow : Bool) (args : Option DsArgs) (t : Entries)
    (f : H5Tree) (p : List String) (hv : validEntries t = true)
    (hf : FreshPath f p (akeys t))
    (hex : (∃ cs, f.lookupPath p = some (.group cs)) ∨ t ≠ []) :
    Checkpoint.saveEntries t f p ow args = .ok (placeAt f p (expectedEntries args t)) := by
  cases t with
  | nil =>
      rcases hex with ⟨cs, hcs⟩ | hne
      · simp only [Checkpoint.saveEntries, expectedEntries, placeAt_nil hcs]
      · exact absurd rfl hne
  | cons e rest =>
      obtain ⟨k, v⟩ := e
      simp only [validEntries, Bool.and_eq_true] at hv
      obtain ⟨⟨⟨hslash, hnodup⟩, hvv⟩, hvr⟩ := hv
      have hfk : FreshPath f p [k] := by
        refine freshPath_mono ?_ hf
        intro x hx
        simp only [List.mem_singleton] at hx
        simp [akeys, hx]
      have h1 := saveOne_correct ow args k v f p hvv hfk
      have hfrest : FreshPath (placeAt f p [(k, expectedNode args v)]) p (akeys rest) := by
        refine freshPath_placeAt ?_ (alookup_isNone_not_mem hnodup)
        refine freshPath_mono ?_ hf
        intro x hx
        simp [akeys, List.mem_cons]
        right
        simpa [akeys] using hx
      have hex' : (∃ cs, (placeAt f p [(k, expectedNode args v)]).lookupPath p =
          some (.group cs)) ∨ rest ≠ [] := Or.inl (lookupPath_placeAt hfk)
      have h2 := saveEntries_correct ow args rest
        (placeAt f p [(k, expectedNode args v)]) p hvr hfrest hex'
      simp only [Checkpoint.saveEntries, h1, Except.bind, h2, placeAt_append,
        expectedEntries]
      rfl

end

/-! ### Correctness of the reader on the written file -/

mutual

/-- Reading back the node written for a valid value yields its round-trip
image. -/
theorem loadOne_expected (args : Option DsArgs) (v : PyVal) (hv : validVal v = true) :
    Checkpoint.loadOne (expectedNode args v) none = .ok (rtImageVal v) := by
  cases v with
  | vDict es =>
      cases es with
      | nil => rfl
      | cons e es' =>
          have h := loadEntries_expected args (e :: es') hv
          simp only [expectedNode, Checkpoint.loadOne, h, Except.map, rtImageVal]
  | vNone => simp [validVal, numericLeaf] at hv
  | vStr s => simp [validVal, numericLeaf] at hv
  | vList l => simp [validVal, numericLeaf] at hv
  | vNpArray a => simp [validVal, numericLeaf] at hv
  | vNpBytes s => simp [validVal, numericLeaf] at hv
  | vInt n => rfl
  | vTensor a => rfl

/-- Reading back the children written for a valid entry list yields its
round-trip image, entry by entry. -/
theorem loadEntries_expected (args : Option DsArgs) (t : Entries)
    (hv : validEntries t = true) :
    Checkpoint.loadEntries (expectedEntries args t) none = .ok (rtImageEntries t) := by
  cases t with
  | nil => rfl
  | cons e rest =>
      obtain ⟨k, v⟩ := e
      simp only [validEntries, Bool.and_eq_true] at hv
      obtain ⟨⟨⟨hslash, hnodup⟩, hvv⟩, hvr⟩ := hv
      have h1 := loadOne_expected args v hvv
      have h2 := loadEntries_expected args rest hvr
      simp only [expectedEntries, Checkpoint.loadEntries,
        Checkpoint.name_contains_string_in_list, if_false, h1, Except.bind, h2,
        Except.map, rtImageEntries]
      rfl

end

mutual

/-- The round-trip image of a valid value satisfies the round-trip
correspondence with the original. -/
theorem roundTripVal_rtImage (v : PyVal) (hv : validVal v = true) :
    roundTripVal v (rtImageVal v) = true := by
  cases v with
  | vDict es => exact roundTripEntries_rtImage es hv
  | vNone => simp [validVal, numericLeaf] at hv
  | vStr s => simp [validVal, numericLeaf] at hv
  | vList l => simp [validVal, numericLeaf] at hv
  | vNpArray a => simp [validVal, numericLeaf] at hv
  | vNpBytes s => simp [validVal, numericLeaf] at hv
  | vInt n => simp [rtImageVal, roundTripVal, npArrayOf]
  | vTensor a => simp [rtImageVal, roundTripVal, npArrayOf]

/-- Entry-list version of `roundTripVal_rtImage`. -/
theorem roundTripEntries_rtImage (t : Entries) (hv : validEntries t = true) :
    roundTripEntries t (rtImageEntries t) = true := by
  cases t with
  | nil => rfl
  | cons e rest =>
      obtain ⟨k, v⟩ := e
      simp only [validEntries, Bool.and_eq_true] at hv
      obtain ⟨⟨⟨hslash, hnodup⟩, hvv⟩, hvr⟩ := hv
      simp only [rtImageEntries, roundTripEntries, Bool.and_eq_true, decide_eq_true_eq]
      exact ⟨⟨trivial, roundTripVal_rtImage v hvv⟩, roundTripEntries_rtImage rest hvr⟩

end

/-! ### The two leaf encoders agree on numeric leaves -/

theorem prepare_eq_of_numericLeaf {v : PyVal} (hv : numericLeaf v = true) :
    DicToH5.prepare_hdf5_dataset v = Checkpoint.prepare_hdf5_dataset v := by
  cases v with
  | vInt n => rfl
  | vTensor a =>
      obtain ⟨sh, kd, da⟩ := a
      simp only [numericLeaf, decide_eq_true_eq] at hv
      rcases hv with hk | hk <;> (subst hk; rfl)
  | vNone => simp [numericLeaf] at hv
  | vStr s => simp [numericLeaf] at hv
  | vList l => simp [numericLeaf] at hv
  | vNpArray a => simp [numericLeaf] at hv
  | vNpBytes s => simp [numericLeaf] at hv
  | vDict es => simp [numericLeaf] at hv

mutual

/-- On values with numeric-only leaves, `dicttoh5`'s per-entry body
behaves exactly like `save_checkpoint`'s. -/
theorem dic_saveOne_eq (ow : Bool) (args : Option DsArgs) (k : String) (v : PyVal)
    (f : H5Tree) (p : List String) (hv : numericOnlyVal v = true) :
    DicToH5.saveOne k v f p ow args = Checkpoint.saveOne k v f p ow args := by
  cases v with
  | vDict es =>
      cases es with
      | nil => rfl
      | cons e es' =>
          have h := dic_saveEntries_eq ow args (e :: es') f (p ++ [k]) hv
          simp only [DicToH5.saveOne, Checkpoint.saveOne, List.length_cons, ne_eq,
            Nat.succ_ne_zero, not_false_eq_true, if_true, h]
  | vNone => rfl
  | vInt n => rfl
  | vTensor a =>
      simp only [DicToH5.saveOne, Checkpoint.saveOne,
        prepare_eq_of_numericLeaf (v := .vTensor a) hv]
  | vStr s => simp [numericOnlyVal, numericLeaf] at hv
  | vList l => simp [numericOnlyVal, numericLeaf] at hv
  | vNpArray a => simp [numericOnlyVal, numericLeaf] at hv
  | vNpBytes s => simp [numericOnlyVal, numericLeaf] at hv

/-- On entry lists with numeric-only leaves, `dicttoh5`'s write loop
behaves exactly like `save_checkpoint`'s. -/
theorem dic_saveEntries_eq (ow : Bool) (args : Option DsArgs) (t : Entries)
    (f : H5Tree) (p : List String) (hv : numericOnlyEntries t = true) :
    DicToH5.saveEntries t f p ow args = Checkpoint.saveEntries t f p ow args := by
  cases t with
  | nil => rfl
  | cons e rest =>
      obtain ⟨k, v⟩ := e
      simp only [numericOnlyEntries, Bool.and_eq_true] at hv
      obtain ⟨hvv, hvr⟩ := hv
      have h1 := dic_saveOne_eq ow args k v f p hvv
      rcases hres : Checkpoint.saveOne k v f p ow args with e' | f'
      · simp [DicToH5.saveEntries, Checkpoint.saveEntries, h1, hres, Except.bind]
      · simp only [DicToH5.saveEntries, Checkpoint.saveEntries, h1, hres, Except.bind]
        exact dic_saveEntries_eq ow args rest f' p hvr

end

/-! ### The scalar rule for recorded dataset-creation arguments -/

theorem dsOkChildren_append {args : Option DsArgs} {xs ys : List (String × H5Tree)}
    (hx : dsOkChildren args xs = true) (hy : dsOkChildren args ys = true) :
    dsOkChildren args (xs ++ ys) = true := by
  induction xs with
  | nil => exact hy
  | cons e rest ih =>
      obtain ⟨k, c⟩ := e
      simp only [dsOkChildren, Bool.and_eq_true] at hx ⊢
      exact ⟨hx.1, ih hx.2⟩

theorem dsOk_of_alookup {args : Option DsArgs} {cs : List (String × H5Tree)}
    {k : String} {sub : H5Tree} (h : alookup cs k = some sub)
    (hcs : dsOkChildren args cs = true) : dsOkNode args sub = true := by
  induction cs with
  | nil => simp [alookup] at h
  | cons e rest ih =>
      obtain ⟨k', c⟩ := e
      simp only [dsOkChildren, Bool.and_eq_true] at hcs
      by_cases hk : k' = k
      · simp only [alookup, if_pos hk, Option.some.injEq] at h
        exact h ▸ hcs.1
      · simp only [alookup, if_neg hk] at h
        exact ih h hcs.2

theorem dsOkChildren_areplace {args : Option DsArgs} {cs : List (String × H5Tree)}
    {k : String} {v : H5Tree} (hcs : dsOkChildren args cs = true)
    (hv : dsOkNode args v = true) : dsOkChildren args (areplace cs k v) = true := by
  induction cs with
  | nil => rfl
  | cons e rest ih =>
      obtain ⟨k', c⟩ := e
      simp only [dsOkChildren, Bool.and_eq_true] at hcs
      by_cases hk : k' = k
      · simp only [areplace, if_pos hk, dsOkChildren, Bool.and_eq_true]
        exact ⟨hv, hcs.2⟩
      · simp only [areplace, if_neg hk, dsOkChildren, Bool.and_eq_true]
        exact ⟨hcs.1, ih hcs.2⟩

theorem dsOk_createAt {args : Option DsArgs} {p : List String} {n : H5Tree} :
    ∀ {f f' : H5Tree}, f.createAt p n = .ok f' → dsOkNode args n = true →
      dsOkNode args f = true → dsOkNode args f' = true := by
  induction p with
  | nil =>
      intro f f' hc _ _
      cases f with
      | group cs => simp [H5Tree.createAt] at hc
      | dataset d a => simp [H5Tree.createAt] at hc
  | cons k rest ih =>
      intro f f' hc hn hf
      cases f with
      | dataset d a => simp [H5Tree.createAt] at hc
      | group cs =>
          cases rest with
          | nil =>
              rcases hl : alookup cs k with _ | sub
              · simp only [H5Tree.createAt, hl, Option.isSome_none, Bool.false_eq_true,
                  if_false, Except.ok.injEq] at hc
                subst hc
                exact dsOkChildren_append hf (by simp [dsOkChildren, hn])
              · simp [H5Tree.createAt, hl] at hc
          | cons k' rest' =>
              rcases hl : alookup cs k with _ | sub
              · rcases hsub : (H5Tree.group []).createAt (k' :: rest') n with e' | sub'
                · simp [H5Tree.createAt, hl, hsub, Except.map] at hc
                · simp only [H5Tree.createAt, hl, hsub, Except.map, Except.ok.injEq] at hc
                  subst hc
                  have hok := ih hsub hn (by rfl)
                  exact dsOkChildren_append hf (by simp [dsOkChildren, hok])
              · rcases hsub : sub.createAt (k' :: rest') n with e' | sub'
                · simp [H5Tree.createAt, hl, hsub, Except.map] at hc
                · simp only [H5Tree.createAt, hl, hsub, Except.map, Except.ok.injEq] at hc
                  subst hc
                  have hok := ih hsub hn (dsOk_of_alookup hl hf)
                  exact dsOkChildren_areplace hf hok

theorem dsOkNode_created_none {args : Option DsArgs} {ds : NpValue}
    (hc : ds.shape = [] ∨ args = none) :
    dsOkNode args (.dataset ds none) = true := by
  simp only [dsOkNode, decide_eq_true_eq]
  rcases hc with h | h
  · rw [if_pos h]
  · by_cases hsh : ds.shape = []
    · rw [if_pos hsh]
    · rw [if_neg hsh]
      exact h.symm

theorem dsOkNode_created_args {args : Option DsArgs} {ds : NpValue}
    (hc : ¬(ds.shape = [] ∨ args = none)) :
    dsOkNode args (.dataset ds args) = true := by
  push_neg at hc
  simp [dsOkNode, if_neg hc.1]

theorem saveLeaf_dsOk_aux {args : Option DsArgs} {prep : Except PyErr NpValue}
    {f f' : H5Tree} {pk : List String}
    (hc : (prep.bind fun ds =>
        if ds.shape = [] ∨ args = none then f.createAt pk (.dataset ds none)
        else f.createAt pk (.dataset ds args)) = .ok f')
    (hf : dsOkNode args f = true) : dsOkNode args f' = true := by
  rcases prep with e | ds
  · simp [Except.bind] at hc
  · simp only [Except.bind] at hc
    by_cases hcnd : ds.shape = [] ∨ args = none
    · rw [if_pos hcnd] at hc
      exact dsOk_createAt hc (dsOkNode_created_none hcnd) hf
    · rw [if_neg hcnd] at hc
      exact dsOk_createAt hc (dsOkNode_created_args hcnd) hf

mutual

/-- Every dataset created by `save_checkpoint`'s per-entry body records
the optional arguments according to the scalar rule. -/
theorem checkpoint_saveOne_dsOk (ow : Bool) (args : Option DsArgs) (k : String)
    (v : PyVal) : ∀ {f : H5Tree} {p : List String} {f' : H5Tree},
    Checkpoint.saveOne k v f p ow args = .ok f' →
    dsOkNode args f = true → dsOkNode args f' = true := by
  intro f p f' hc hf
  cases v with
  | vDict es =>
      cases es with
      | nil =>
          simp only [Checkpoint.saveOne, List.length_nil, ne_eq, not_true_eq_false,
            if_false] at hc
          exact dsOk_createAt hc rfl hf
      | cons e es' =>
          simp only [Checkpoint.saveOne, List.length_cons, ne_eq, Nat.succ_ne_zero,
            not_false_eq_true, if_true] at hc
          exact checkpoint_saveEntries_dsOk ow args (e :: es') hc hf
  | vNone =>
      simp only [Checkpoint.saveOne] at hc
      exact dsOk_createAt hc rfl hf
  | vInt n => exact saveLeaf_dsOk_aux (by simpa [Checkpoint.saveOne] using hc) hf
  | vStr s => exact saveLeaf_dsOk_aux (by simpa [Checkpoint.saveOne] using hc) hf
  | vList l => exact saveLeaf_dsOk_aux (by simpa [Checkpoint.saveOne] using hc) hf
  | vTensor a => exact saveLeaf_dsOk_aux (by simpa [Checkpoint.saveOne] using hc) hf
  | vNpArray a => exact saveLeaf_dsOk_aux (by simpa [Checkpoint.saveOne] using hc) hf
  | vNpBytes s => exact saveLeaf_dsOk_aux (by simpa [Checkpoint.saveOne] using hc) hf

/-- Every dataset created by `save_checkpoint`'s write loop records the
optional arguments according to the scalar rule. -/
theorem checkpoint_saveEntries_dsOk (ow : Bool) (args : Option DsArgs) (t : Entries) :
    ∀ {f : H5Tree} {p : List String} {f' : H5Tree},
    Checkpoint.saveEntries t f p ow args = .ok f' →
    dsOkNode args f = true → dsOkNode args f' = true := by
  intro f p f' hc hf
  cases t with
  | nil =>
      simp only [Checkpoint.saveEntries, Except.ok.injEq] at hc
      exact hc ▸ hf
  | cons e rest =>
      obtain ⟨k, v⟩ := e
      rcases h1 : Checkpoint.saveOne k v f p ow args with e' | f1
      · simp [Checkpoint.saveEntries, h1, Except.bind] at hc
      · simp only [Checkpoint.saveEntries, h1, Except.bind] at hc
        exact checkpoint_saveEntries_dsOk ow args rest hc
          (checkpoint_saveOne_dsOk ow args k v h1 hf)

end

mutual

/-- Every dataset created by `dicttoh5`'s per-entry body records the
optional arguments according to the scalar rule. -/
theorem dic_saveOne_dsOk (ow : Bool) (args : Option DsArgs) (k : String)
    (v : PyVal) : ∀ {f : H5Tree} {p : List String} {f' : H5Tree},
    DicToH5.saveOne k v f p ow args = .ok f' →
    dsOkNode args f = true → dsOkNode args f' = true := by
  intro f p f' hc hf
  cases v with
  | vDict es =>
      cases es with
      | nil =>
          simp only [DicToH5.saveOne, List.length_nil, ne_eq, not_true_eq_false,
            if_false] at hc
          exact dsOk_createAt hc rfl hf
      | cons e es' =>
          simp only [DicToH5.saveOne, List.length_cons, ne_eq, Nat.succ_ne_zero,
            not_false_eq_true, if_true] at hc
          exact dic_saveEntries_dsOk ow args (e :: es') hc hf
  | vNone =>
      simp only [DicToH5.saveOne] at hc
      exact dsOk_createAt hc rfl hf
  | vInt n => exact saveLeaf_dsOk_aux (by simpa [DicToH5.saveOne] using hc) hf
  | vStr s => exact saveLeaf_dsOk_aux (by simpa [DicToH5.saveOne] using hc) hf
  | vList l => exact saveLeaf_dsOk_aux (by simpa [DicToH5.saveOne] using hc) hf
  | vTensor a => exact saveLeaf_dsOk_aux (by simpa [DicToH5.saveOne] using hc) hf
  | vNpArray a => exact saveLeaf_dsOk_aux (by simpa [DicToH5.saveOne] using hc) hf
  | vNpBytes s => exact saveLeaf_dsOk_aux (by simpa [DicToH5.saveOne] using hc) hf

/-- Every dataset created by `dicttoh5`'s write loop records the optional
arguments according to the scalar rule. -/
theorem dic_saveEntries_dsOk (ow : Bool) (args : Option DsArgs) (t : Entries) :
    ∀ {f : H5Tree} {p : List String} {f' : H5Tree},
    DicToH5.saveEntries t f p ow args = .ok f' →
    dsOkNode args f = true → dsOkNode args f' = true := by
  intro f p f' hc hf
  cases t with
  | nil =>
      simp only [DicToH5.saveEntries, Except.ok.injEq] at hc
      exact hc ▸ hf
  | cons e rest =>
      obtain ⟨k, v⟩ := e
      rcases h1 : DicToH5.saveOne k v f p ow args with e' | f1
      · simp [DicToH5.saveEntries, h1, Except.bind] at hc
      · simp only [DicToH5.saveEntries, h1, Except.bind] at hc
        exact dic_saveEntries_dsOk ow args rest hc
          (dic_saveOne_dsOk ow args k v h1 hf)

end

theorem asStrs_map (ss : List String) : asStrs (ss.map PyVal.vStr) = some ss := by
  induction ss with
  | nil => rfl
  | cons s rest ih => simp [asStrs, ih]

/-! ### Claims -/

/-- Claim C1, counterexample to the claim as stated: a dict tree with the
string leaf `"hello"` (a permitted leaf per the claim) cannot even be
written — `save_checkpoint` raises `AttributeError` at the
`array_like.cpu()` call, because the string was first converted to a
`numpy.string_` scalar, which has no `cpu` attribute.  Hence writing and
reading back does not yield any mapping at all. -/
theorem claim_C1_counterexample :
    Checkpoint.save_checkpoint false [("a", .vStr "hello")] (.group []) [] false none =
      .error (.attrError "cpu") := rfl

/-- Claim C1 (amended): for every dict tree whose leaves are only integer
scalars and numeric tensor values and whose keys contain no `/` (and are
unique within their parent, as Python dict keys are), writing it with
`save_checkpoint` and reading it back with `load_checkpoint` yields a
mapping with the same keys and nesting structure at every level, and each
leaf, converted to a plain in-memory array, equals the array form of the
original leaf value (`roundTripEntries`). -/
theorem claim_C1_roundtrip (t : Entries) (args : Option DsArgs) (ow : Bool)
    (hv : validEntries t = true) :
    ∃ (f : H5Tree) (r : Entries),
      Checkpoint.save_checkpoint false t (.group []) [] ow args = .ok f ∧
      Checkpoint.load_checkpoint false f [] none = .ok (.vDict r) ∧
      roundTripEntries t r = true := by
  refine ⟨.group (expectedEntries args t), rtImageEntries t, ?_, ?_, ?_⟩
  · have h := saveEntries_correct ow args t (.group []) [] hv freshPath_empty_group
      (Or.inl ⟨[], rfl⟩)
    simpa [Checkpoint.save_checkpoint, placeAt] using h
  · have h := loadEntries_expected args t hv
    simp [Checkpoint.load_checkpoint, H5Tree.lookupPath, h, Except.map]
  · exact roundTripEntries_rtImage t hv

/-- Witness for claim C1: the amended round-trip at a concrete two-level
tree with an int leaf and a tensor leaf. -/
theorem claim_C1_witness :
    validEntries [("a", PyVal.vInt 3),
      ("g", PyVal.vDict [("b", PyVal.vTensor ⟨[2], .intK, [.eInt 1, .eInt 2]⟩)])] = true ∧
    ∃ (f : H5Tree) (r : Entries),
      Checkpoint.save_checkpoint false [("a", PyVal.vInt 3),
          ("g", PyVal.vDict [("b", PyVal.vTensor ⟨[2], .intK, [.eInt 1, .eInt 2]⟩)])]
          (.group []) [] false none = .ok f ∧
      Checkpoint.load_checkpoint false f [] none = .ok (.vDict r) ∧
      roundTripEntries [("a", PyVal.vInt 3),
        ("g", PyVal.vDict [("b", PyVal.vTensor ⟨[2], .intK, [.eInt 1, .eInt 2]⟩)])] r = true :=
  ⟨rfl, claim_C1_roundtrip _ none false rfl⟩

/-- Claim C2: evaluation of `_prepare_hdf5_dataset` (checkpoint module) at
the failing inputs.  The claim (and the function's own docstring, which
promises `str`, `list` and `numpy.ndarray` inputs) says no error is
raised here apart from the array constructor's own failure; in fact every
value that is neither an `int` nor a tensor — including a plain string,
already converted to a `numpy.string_` scalar — raises `AttributeError`
at the unconditional `array_like.cpu()` call.  Only ints and tensors are
processed. -/
theorem claim_C2_encoder :
    Checkpoint.prepare_hdf5_dataset (.vStr "hello") = .error (.attrError "cpu") ∧
    Checkpoint.prepare_hdf5_dataset (.vList [.vInt 1, .vInt 2]) = .error (.attrError "cpu") ∧
    Checkpoint.prepare_hdf5_dataset (.vNpArray ⟨[2], .intK, [.eInt 1, .eInt 2]⟩) =
      .error (.attrError "cpu") ∧
    Checkpoint.prepare_hdf5_dataset (.vInt 7) = .ok (.ndarray ⟨[], .intK, [.eInt 7]⟩) ∧
    Checkpoint.prepare_hdf5_dataset (.vTensor ⟨[3], .intK, [.eInt 1, .eInt 2, .eInt 3]⟩) =
      .ok (.ndarray ⟨[3], .intK, [.eInt 1, .eInt 2, .eInt 3]⟩) :=
  ⟨rfl, rfl, rfl, rfl, rfl⟩

/-- Claim C3, counterexample to the claim as stated: on the dict tree
`{"a": [1, 2, 3]}` — all leaves numeric, no strings — `dicttoh5` writes a
1-d integer dataset while `save_checkpoint` raises `AttributeError`
(a Python list has no `cpu` attribute), so the two writers do not produce
identical results. -/
theorem claim_C3_counterexample :
    DicToH5.dicttoh5 false [("a", .vList [.vInt 1, .vInt 2, .vInt 3])]
        (.group []) [] false none =
      .ok (.group [("a", .dataset (.ndarray ⟨[3], .intK, [.eInt 1, .eInt 2, .eInt 3]⟩)
        none)]) ∧
    Checkpoint.save_checkpoint false [("a", .vList [.vInt 1, .vInt 2, .vInt 3])]
        (.group []) [] false none =
      .error (.attrError "cpu") :=
  ⟨rfl, rfl⟩

/-- Claim C3 (amended): for every dict tree whose leaves are all integer
scalars or numeric tensors, `dicttoh5` (legacy module) and
`save_checkpoint` (checkpoint module) behave identically: same container
structure, same dataset contents, same recorded dataset-creation
arguments, and the same outcome on every error path. -/
theorem claim_C3_legacy_equiv (missing : Bool) (t : Entries) (f : H5Tree)
    (p : List String) (ow : Bool) (args : Option DsArgs)
    (hv : numericOnlyEntries t = true) :
    DicToH5.dicttoh5 missing t f p ow args =
      Checkpoint.save_checkpoint missing t f p ow args := by
  by_cases hm : missing <;>
    simp [DicToH5.dicttoh5, Checkpoint.save_checkpoint, hm,
      dic_saveEntries_eq ow args t f p hv]

/-- Witness for claim C3: the amended equivalence at a concrete tree with
an int leaf and a tensor leaf. -/
theorem claim_C3_witness :
    numericOnlyEntries [("x", PyVal.vInt 5),
      ("g", PyVal.vDict [("y", PyVal.vTensor ⟨[2], .intK, [.eInt 4, .eInt 6]⟩)])] = true ∧
    DicToH5.dicttoh5 false [("x", PyVal.vInt 5),
        ("g", PyVal.vDict [("y", PyVal.vTensor ⟨[2], .intK, [.eInt 4, .eInt 6]⟩)])]
        (.group []) [] false none =
      Checkpoint.save_checkpoint false [("x", PyVal.vInt 5),
        ("g", PyVal.vDict [("y", PyVal.vTensor ⟨[2], .intK, [.eInt 4, .eInt 6]⟩)])]
        (.group []) [] false none :=
  ⟨rfl, claim_C3_legacy_equiv false _ (.group []) [] false none rfl⟩

/-- Claim C4: when the `h5py` backend is unavailable, `save_checkpoint`,
`load_checkpoint` and `dicttoh5` re-raise the original import failure,
and `dump`/`load` with format `hdf5`/`h5` (explicit or inferred from the
extension) additionally emit an error-severity log record before
re-raising it. -/
theorem claim_C4_missing_dependency :
    (∀ (t : Entries) (f : H5Tree) (p : List String) (ow : Bool) (args : Option DsArgs),
        Checkpoint.save_checkpoint true t f p ow args = .error .importError) ∧
    (∀ (f : H5Tree) (p : List String) (ex : Option (List String)),
        Checkpoint.load_checkpoint true f p ex = .error .importError) ∧
    (∀ (t : Entries) (f : H5Tree) (p : List String) (ow : Bool) (args : Option DsArgs),
        DicToH5.dicttoh5 true t f p ow args = .error .importError) ∧
    (∀ (ffile : FileArg) (mode fm : String),
        strLower fm = "hdf5" ∨ strLower fm = "h5" →
        dump true ffile mode (some fm) =
          ([.logError "Cannot dump to HDF5 format, missing h5py library"],
           .error .importError)) ∧
    (∀ (s mode : String),
        strLower (extAfterDot s) = "hdf5" ∨ strLower (extAfterDot s) = "h5" →
        dump true (.path s) mode none =
          ([.logError "Cannot dump to HDF5 format, missing h5py library"],
           .error .importError)) ∧
    (∀ (s fm : String), strLower fm = "hdf5" ∨ strLower fm = "h5" →
        load true (.path s) (some fm) =
          ([.openFile s "r",
            .logError "Cannot load from HDF5 format, missing h5py library"],
           .error .importError)) ∧
    (∀ (hw : Bool) (n fm : String), strLower fm = "hdf5" ∨ strLower fm = "h5" →
        load true (.handle ⟨hw, true, some n⟩) (some fm) =
          ([.logError "Cannot load from HDF5 format, missing h5py library"],
           .error .importError)) := by
  refine ⟨fun _ _ _ _ _ => rfl, fun _ _ _ => rfl, fun _ _ _ _ _ => rfl, ?_, ?_, ?_, ?_⟩
  · intro ffile mode fm h
    rcases h with h | h <;> simp [dump, h]
  · intro s mode h
    rcases h with h | h <;> simp [dump, inferredFormat, h]
  · intro s fm h
    rcases h with h | h <;> simp [load, h]
  · intro hw n fm h
    rcases h with h | h <;> simp [load, h]

/-- Witness for claim C4: the façade parts at the concrete format string
`"hdf5"` and the concrete filename `"m.h5"`. -/
theorem claim_C4_witness :
    dump true (.handle ⟨true, false, none⟩) "w" (some "hdf5") =
      ([.logError "Cannot dump to HDF5 format, missing h5py library"],
       .error .importError) ∧
    dump true (.path "m.h5") "w" none =
      ([.logError "Cannot dump to HDF5 format, missing h5py library"],
       .error .importError) ∧
    load true (.path "m.h5") (some "hdf5") =
      ([.openFile "m.h5" "r",
        .logError "Cannot load from HDF5 format, missing h5py library"],
       .error .importError) ∧
    load true (.handle ⟨false, true, some "m.h5"⟩) (some "h5") =
      ([.logError "Cannot load from HDF5 format, missing h5py library"],
       .error .importError) :=
  ⟨claim_C4_missing_dependency.2.2.2.1 _ "w" "hdf5" (Or.inl rfl),
   claim_C4_missing_dependency.2.2.2.2.1 "m.h5" "w" (Or.inr rfl),
   claim_C4_missing_dependency.2.2.2.2.2.1 "m.h5" "hdf5" (Or.inl rfl),
   claim_C4_missing_dependency.2.2.2.2.2.2 false "m.h5" "h5" (Or.inr rfl)⟩

/-- Claim C5, counterexample to the claim as stated: the explicit format
string `"JSON"` is not one of `json`, `hdf5`, `h5`, `ini`, `cfg`, yet
`dump` does not fail — it lower-cases the format first and writes JSON. -/
theorem claim_C5_counterexample :
    dump false (.handle ⟨true, false, none⟩) "w" (some "JSON") =
      ([.jsonDump (some 2)], .ok ()) ∧
    "JSON" ∉ (["json", "hdf5", "h5", "ini", "cfg"] : List String) :=
  ⟨rfl, by decide⟩

/-- Claim C5 (amended): for every format string whose lower-casing is not
one of `json`, `hdf5`, `h5`, `ini`, `cfg` — whether given explicitly or
inferred as the filename extension after the last dot — both `dump` and
`load` fail with an I/O-kind error whose message is exactly
`"Unknown format "` followed by the lower-cased format string. -/
theorem claim_C5_unknown_format :
    (∀ fm : String, strLower fm ∉ (["json", "hdf5", "h5", "ini", "cfg"] : List String) →
      (∀ (missing : Bool) (ffile : FileArg) (mode : String),
          dump missing ffile mode (some fm) =
            ([], .error (.ioError ("Unknown format " ++ strLower fm)))) ∧
      (∀ (missing : Bool) (s : String),
          load missing (.path s) (some fm) =
            ([.openFile s "r"],
             .error (.ioError ("Unknown format " ++ strLower fm))))) ∧
    (∀ s : String,
        strLower (extAfterDot s) ∉ (["json", "hdf5", "h5", "ini", "cfg"] : List String) →
      (∀ (missing : Bool) (mode : String),
          dump missing (.path s) mode none =
            ([], .error (.ioError ("Unknown format " ++ strLower (extAfterDot s))))) ∧
      (∀ missing : Bool,
          load missing (.path s) none =
            ([.openFile s "r"],
             .error (.ioError ("Unknown format " ++ strLower (extAfterDot s)))))) := by
  constructor
  · intro fm h
    have hj : ¬ strLower fm = "json" := fun hh => h (by simp [hh])
    have hh5 : ¬ (strLower fm = "hdf5" ∨ strLower fm = "h5") := by
      rintro (hh | hh) <;> exact h (by simp [hh])
    have hini : ¬ (strLower fm = "ini" ∨ strLower fm = "cfg") := by
      rintro (hh | hh) <;> exact h (by simp [hh])
    exact ⟨fun missing ffile mode => by simp [dump, if_neg hj, if_neg hh5, if_neg hini],
           fun missing s => by simp [load, if_neg hj, if_neg hh5, if_neg hini]⟩
  · intro s h
    have hj : ¬ strLower (extAfterDot s) = "json" := fun hh => h (by simp [hh])
    have hh5 : ¬ (strLower (extAfterDot s) = "hdf5" ∨ strLower (extAfterDot s) = "h5") := by
      rintro (hh | hh) <;> exact h (by simp [hh])
    have hini : ¬ (strLower (extAfterDot s) = "ini" ∨ strLower (extAfterDot s) = "cfg") := by
      rintro (hh | hh) <;> exact h (by simp [hh])
    exact ⟨fun missing mode => by
            simp [dump, inferredFormat, if_neg hj, if_neg hh5, if_neg hini],
           fun missing => by simp [load, if_neg hj, if_neg hh5, if_neg hini]⟩

/-- Witness for claim C5: the amended unknown-format failure at the
explicit format `"XyZ"` and the filename `"out.xyz"`. -/
theorem claim_C5_witness :
    dump false (.handle ⟨true, false, none⟩) "w" (some "XyZ") =
      ([], .error (.ioError "Unknown format xyz")) ∧
    load false (.path "out.xyz") none =
      ([.openFile "out.xyz" "r"], .error (.ioError "Unknown format xyz")) :=
  ⟨(claim_C5_unknown_format.1 "XyZ" (by decide)).1 false _ "w",
   (claim_C5_unknown_format.2 "out.xyz" (by decide)).2 false⟩

/-- Claim C6: for every leaf written by `save_checkpoint` or `dicttoh5`,
the supplied dataset-creation options are passed to the backend's dataset
creation iff the encoded value is not a zero-dimensional (scalar) array
and options were supplied: whenever a write succeeds, every dataset of
the resulting file records the options according to that rule
(`dsOkNode`), provided every dataset of the input file already did (in
particular starting from an empty or freshly truncated file). -/
theorem claim_C6_scalar_args :
    (∀ (missing ow : Bool) (t : Entries) (f : H5Tree) (p : List String)
        (args : Option DsArgs) (f' : H5Tree),
        Checkpoint.save_checkpoint missing t f p ow args = .ok f' →
        dsOkNode args f = true → dsOkNode args f' = true) ∧
    (∀ (missing ow : Bool) (t : Entries) (f : H5Tree) (p : List String)
        (args : Option DsArgs) (f' : H5Tree),
        DicToH5.dicttoh5 missing t f p ow args = .ok f' →
        dsOkNode args f = true → dsOkNode args f' = true) := by
  constructor
  · intro missing ow t f p args f' hc hf
    cases missing with
    | true => simp [Checkpoint.save_checkpoint] at hc
    | false =>
        simp only [Checkpoint.save_checkpoint, Bool.false_eq_true, if_false] at hc
        exact checkpoint_saveEntries_dsOk ow args t hc hf
  · intro missing ow t f p args f' hc hf
    cases missing with
    | true => simp [DicToH5.dicttoh5] at hc
    | false =>
        simp only [DicToH5.dicttoh5, Bool.false_eq_true, if_false] at hc
        exact dic_saveEntries_dsOk ow args t hc hf

/-- Witness for claim C6: a concrete write with compression options where
the scalar int leaf is stored without the options and the 1-d tensor leaf
with them. -/
theorem claim_C6_witness :
    Checkpoint.save_checkpoint false
        [("x", PyVal.vInt 5), ("y", PyVal.vTensor ⟨[2], .intK, [.eInt 7, .eInt 8]⟩)]
        (.group []) [] false (some [("compression", "gzip")]) =
      .ok (.group [("x", .dataset (.ndarray ⟨[], .intK, [.eInt 5]⟩) none),
        ("y", .dataset (.ndarray ⟨[2], .intK, [.eInt 7, .eInt 8]⟩)
          (some [("compression", "gzip")]))]) ∧
    dsOkNode (some [("compression", "gzip")])
      (.group [("x", .dataset (.ndarray ⟨[], .intK, [.eInt 5]⟩) none),
        ("y", .dataset (.ndarray ⟨[2], .intK, [.eInt 7, .eInt 8]⟩)
          (some [("compression", "gzip")]))]) = true :=
  ⟨rfl,
   claim_C6_scalar_args.1 false false
     [("x", PyVal.vInt 5), ("y", PyVal.vTensor ⟨[2], .intK, [.eInt 7, .eInt 8]⟩)]
     (.group []) [] (some [("compression", "gzip")]) _ rfl rfl⟩

/-- Claim C7: writing the dict tree `{"a": {}, "b": None}` to the
container format produces exactly two empty groups `a` and `b`, and
reading the file back with `load_checkpoint` yields `{"a": {}, "b": {}}`,
both children being empty mappings. -/
theorem claim_C7_empty_groups :
    Checkpoint.save_checkpoint false [("a", .vDict []), ("b", .vNone)]
        (.group []) [] false none =
      .ok (.group [("a", .group []), ("b", .group [])]) ∧
    Checkpoint.load_checkpoint false (.group [("a", .group []), ("b", .group [])])
        [] none =
      .ok (.vDict [("a", .vDict []), ("b", .vDict [])]) :=
  ⟨rfl, rfl⟩

/-- Claim C8: for every leaf encoded by the legacy module's encoder, if
the native array produced by the construction step has a textual element
kind (fixed-width `S` or variable-width `U` string kind), the returned
array is the whole array re-coerced to the fixed-width byte-string kind;
in particular a non-empty list of native (non-byte) strings is encoded as
a fixed-width byte-string array. -/
theorem claim_C8_textual_coercion :
    (∀ (v : PyVal) (a : NpArray),
        DicToH5.toNativeArray v = .ok (.ndarray a) →
        a.kind = .bytesK ∨ a.kind = .unicodeK →
        DicToH5.prepare_hdf5_dataset v = .ok (.ndarray (npAsBytesArray a)) ∧
          (npAsBytesArray a).kind = .bytesK) ∧
    (∀ ss : List String, ss ≠ [] →
        DicToH5.prepare_hdf5_dataset (.vList (ss.map PyVal.vStr)) =
          .ok (.ndarray ⟨[ss.length], .bytesK, ss.map NpElem.eStr⟩)) := by
  constructor
  · intro v a hna hkind
    refine ⟨?_, rfl⟩
    simp only [DicToH5.prepare_hdf5_dataset, hna, Except.map]
    rcases hkind with h | h <;>
      simp [DicToH5.textualFix, h, charLower, NpKind.char, npAsBytesArray]
  · intro ss hne
    cases ss with
    | nil => exact absurd rfl hne
    | cons s0 rest =>
        have harr : npArrayOf (.vList ((s0 :: rest).map PyVal.vStr)) =
            .ok ⟨(s0 :: rest).map PyVal.vStr |>.length |> (fun n => [n]), .unicodeK,
                 (s0 :: rest).map NpElem.eStr⟩ := by
          simp only [List.map_cons, npArrayOf, asInts]
          rw [show PyVal.vStr s0 :: rest.map PyVal.vStr = (s0 :: rest).map PyVal.vStr
            from rfl, asStrs_map (s0 :: rest)]
          simp
        have hbytes : ((s0 :: rest).map NpElem.eStr).map
            (fun e => match e with
              | .eStr s => NpElem.eStr s
              | .eInt n => NpElem.eStr (toString n)) = (s0 :: rest).map NpElem.eStr := by
          induction (s0 :: rest) with
          | nil => rfl
          | cons x xs ih => simp_all
        simp only [DicToH5.prepare_hdf5_dataset, DicToH5.toNativeArray, List.map_cons]
        rw [show PyVal.vStr s0 :: rest.map PyVal.vStr = (s0 :: rest).map PyVal.vStr
          from rfl, harr]
        simp [Except.map, DicToH5.textualFix, charLower, NpKind.char, npAsBytesArray,
          hbytes]

/-- Witness for claim C8: both parts at the concrete string list
`["ab", "c"]`. -/
theorem claim_C8_witness :
    (DicToH5.toNativeArray (.vList [.vStr "ab", .vStr "c"]) =
        .ok (.ndarray ⟨[2], .unicodeK, [.eStr "ab", .eStr "c"]⟩) ∧
      DicToH5.prepare_hdf5_dataset (.vList [.vStr "ab", .vStr "c"]) =
        .ok (.ndarray (npAsBytesArray ⟨[2], .unicodeK, [.eStr "ab", .eStr "c"]⟩)) ∧
      (npAsBytesArray ⟨[2], .unicodeK, [.eStr "ab", .eStr "c"]⟩).kind = .bytesK) ∧
    DicToH5.prepare_hdf5_dataset (.vList [.vStr "ab", .vStr "c"]) =
      .ok (.ndarray ⟨[2], .bytesK, [.eStr "ab", .eStr "c"]⟩) :=
  ⟨⟨rfl,
    (claim_C8_textual_coercion.1 (.vList [.vStr "ab", .vStr "c"])
      ⟨[2], .unicodeK, [.eStr "ab", .eStr "c"]⟩ rfl (Or.inr rfl)).1,
    (claim_C8_textual_coercion.1 (.vList [.vStr "ab", .vStr "c"])
      ⟨[2], .unicodeK, [.eStr "ab", .eStr "c"]⟩ rfl (Or.inr rfl)).2⟩,
   claim_C8_textual_coercion.2 ["ab", "c"] (by decide)⟩

/-- Claim C9: evaluation of `load` at a source given as a filename path.
The claim says the handle `load` opens is closed before the call
completes on every exit path; in fact no branch of `load` ever closes it:
the trace of a successful JSON load and of a failed unknown-format load
each contain the `open` event and no `close` event.  For contrast,
`dicttojson` does close the file it opens. -/
theorem claim_C9_load_never_closes :
    load false (.path "d.json") none =
      ([.openFile "d.json" "r", .jsonLoad], .ok .jsonLoaded) ∧
    Ev.closeFile "d.json" ∉ (load false (.path "d.json") none).1 ∧
    load false (.path "d.xyz") none =
      ([.openFile "d.xyz" "r"], .error (.ioError "Unknown format xyz")) ∧
    Ev.closeFile "d.xyz" ∉ (load false (.path "d.xyz") none).1 ∧
    dicttojson (.path "d.json") (some 2) "w" =
      ([.openFile "d.json" "w", .jsonDump (some 2), .closeFile "d.json"], .ok ()) :=
  ⟨rfl, by decide, rfl, by decide, rfl⟩

/-- Claim C10: for every source object that has a `read` attribute but no
`name` attribute, `load` fails with an attribute-access error before
performing any format dispatch (no event is emitted), even when an
explicit format argument is supplied. -/
theorem claim_C10_name_before_dispatch (missing hw : Bool) (fmat : Option String) :
    load missing (.handle ⟨hw, true, none⟩) fmat = ([], .error (.attrError "name")) := rfl

end DictDump
